import Mathlib

/-
Verification development for the `segmented_list` unrolled linked list
(src/src/segmented_list.hpp).  The container is modelled by a shallow
embedding: blocks live in a heap (`store`, an association list from block
id to block value), raw C++ pointers become optional block ids, and every
operation is translated statement by statement from the source.  A thrown
`std::out_of_range` becomes an `out_of_range` error value; dereferencing a
null or dangling pointer (undefined behaviour in the source) becomes a
`null_deref` error value.  Mutating operations return the state they had
produced so far alongside the error, mirroring the fact that a C++
exception leaves the partially mutated object behind.
-/

set_option maxHeartbeats 1000000

namespace SL

/-- Wrapping subtraction on `size_t` values: the C++ source computes `a - b`
in unsigned 64-bit arithmetic, which wraps modulo `2 ^ 64` when `b > a`. -/
def wsub (a b : Nat) : Nat :=
  if b ≤ a then a - b else 2 ^ 64 - (b - a) % 2 ^ 64

/-- Error outcomes: `out_of_range` models a thrown `std::out_of_range`;
`null_deref` models undefined behaviour from following a null or dangling
block pointer; `fuel_exhausted` is the artificial outcome of a modelled
`while` loop running out of fuel (never reached on the runs analysed here,
and the frame theorems below hold for every fuel value). -/
inductive cerr : Type
  | out_of_range
  | null_deref
  | fuel_exhausted
deriving DecidableEq

/-- Model of `list_block<T, N>`: the `std::array<T, N>` storage (`arr`, kept
at length `N`), the `_previous` and `_next` links as optional block ids, and
the live element count `_size`.  The constant `_capacity` field is always the
template parameter `N` and is passed separately to every operation. -/
structure list_block (α : Type) : Type where
  arr : List α
  previous : Option Nat
  next : Option Nat
  size : Nat
deriving DecidableEq

/-- Model of the `segmented_list` container: `store` is the heap of blocks
addressed by id, `next_id` the next fresh id, and the remaining fields mirror
`_head`, `_tail`, `_reserved`, `_size`, `_capacity`, `_num_blocks`.
`alloc_count` counts the fresh allocations performed through the allocator;
it is the observation made by the counting allocation strategy the spec's
tests inject. -/
structure segmented_list (α : Type) : Type where
  store : List (Nat × list_block α)
  next_id : Nat
  head : Option Nat
  tail : Option Nat
  reserved : Option Nat
  size : Nat
  capacity : Nat
  num_blocks : Nat
  alloc_count : Nat
deriving DecidableEq

/-- Result of a mutating container operation: success with the new state, or
an error paired with the state at the moment the error occurred. -/
abbrev mres (α : Type) := Except (cerr × segmented_list α) (segmented_list α)

variable {α : Type} [Inhabited α]

/-- The state an operation left behind, whether it succeeded or failed. -/
def resState : mres α → segmented_list α
  | .ok s => s
  | .error (_, s) => s

/-- The kind of error an operation produced, if any. -/
def errKind : mres α → Option cerr
  | .ok _ => none
  | .error (e, _) => some e

/-- Dereference a block pointer: look a block id up in the heap. -/
def find_block : List (Nat × list_block α) → Nat → Option (list_block α)
  | [], _ => none
  | p :: rest, i => if p.1 = i then some p.2 else find_block rest i

/-- Write through a block pointer: replace the first entry with the given id.
Block ids are unique in every reachable state, so this is the C++ store. -/
def set_block : List (Nat × list_block α) → Nat → list_block α →
    List (Nat × list_block α)
  | [], _, _ => []
  | p :: rest, i, b => if p.1 = i then (i, b) :: rest else p :: set_block rest i b

/-- Deallocate a block: remove its entry from the heap. -/
def remove_block (st : List (Nat × list_block α)) (i : Nat) :
    List (Nat × list_block α) :=
  st.filter (fun p => p.1 != i)

/-- `segmented_list::_alloc_block`: attach the reserved block as the new tail
if one is present (the source does not clear `_reserved` afterwards), else
allocate and construct a fresh block (constructed with `_previous = _tail`)
and link it in according to `_num_blocks`; finally bump capacity and count. -/
def alloc_block (N : Nat) (s : segmented_list α) : mres α :=
  match s.reserved with
  | some r =>
    match s.tail with
    | none => .error (.null_deref, s)
    | some t =>
      match find_block s.store t with
      | none => .error (.null_deref, s)
      | some tb =>
        let st1 := set_block s.store t { tb with next := some r }
        match find_block st1 r with
        | none => .error (.null_deref, { s with store := st1 })
        | some rb =>
          let st2 := set_block st1 r { rb with previous := some t }
          .ok { s with
                store := st2, tail := some r,
                capacity := s.capacity + N, num_blocks := s.num_blocks + 1 }
  | none =>
    let id := s.next_id
    let nb : list_block α :=
      { arr := List.replicate N default, previous := s.tail, next := none, size := 0 }
    let s1 : segmented_list α :=
      { s with
        store := (id, nb) :: s.store, next_id := id + 1,
        alloc_count := s.alloc_count + 1 }
    if s.num_blocks = 0 then
      .ok { s1 with
            head := some id, tail := some id,
            capacity := s1.capacity + N, num_blocks := s1.num_blocks + 1 }
    else if s.num_blocks = 1 then
      match s1.head with
      | none => .error (.null_deref, s1)
      | some h =>
        match find_block s1.store h with
        | none => .error (.null_deref, s1)
        | some hb =>
          .ok { s1 with
                store := set_block s1.store h { hb with next := some id },
                tail := some id,
                capacity := s1.capacity + N, num_blocks := s1.num_blocks + 1 }
    else
      match s1.tail with
      | none => .error (.null_deref, s1)
      | some t =>
        match find_block s1.store t with
        | none => .error (.null_deref, s1)
        | some tb =>
          .ok { s1 with
                store := set_block s1.store t { tb with next := some id },
                tail := some id,
                capacity := s1.capacity + N, num_blocks := s1.num_blocks + 1 }

/-- `segmented_list::push_back`: allocate a block when `_size == _capacity`,
then `_tail->push_back(val)` (which itself throws when the block is full)
and increment `_size`. -/
def push_back (N : Nat) (s : segmented_list α) (v : α) : mres α :=
  match (if s.size = s.capacity then alloc_block N s else .ok s : mres α) with
  | .error e => .error e
  | .ok s1 =>
    match s1.tail with
    | none => .error (.null_deref, s1)
    | some t =>
      match find_block s1.store t with
      | none => .error (.null_deref, s1)
      | some tb =>
        if tb.size < N then
          .ok { s1 with
                store := set_block s1.store t
                  { tb with arr := tb.arr.set tb.size v, size := tb.size + 1 },
                size := s1.size + 1 }
        else .error (.out_of_range, s1)

/-- `segmented_list::pop_back`: throw on an empty container; otherwise
decrement the tail block's count and `_size`, and if the tail block became
empty detach it (writing through `_tail->_previous`, which the source never
checks for null) and either free it (if `_reserved` is occupied) or cache it
as the reserved block. -/
def pop_back (N : Nat) (s : segmented_list α) : mres α :=
  if s.size = 0 then .error (.out_of_range, s)
  else
    match s.tail with
    | none => .error (.null_deref, s)
    | some t =>
      match find_block s.store t with
      | none => .error (.null_deref, s)
      | some tb =>
        let tb1 := { tb with size := wsub tb.size 1 }
        let s1 : segmented_list α :=
          { s with
            store := set_block s.store t tb1, size := wsub s.size 1 }
        if tb1.size = 0 then
          match tb1.previous with
          | none => .error (.null_deref, s1)
          | some nt =>
            match find_block s1.store nt with
            | none => .error (.null_deref, s1)
            | some ntb =>
              let s2 : segmented_list α :=
                { s1 with store := set_block s1.store nt { ntb with next := none } }
              match s2.reserved with
              | some _ =>
                .ok { s2 with
                      store := remove_block s2.store t, tail := some nt,
                      capacity := wsub s2.capacity N,
                      num_blocks := wsub s2.num_blocks 1 }
              | none =>
                match find_block s2.store t with
                | none => .error (.null_deref, s2)
                | some tb2 =>
                  .ok { s2 with
                        store := set_block s2.store t
                          { tb2 with previous := none, next := none, size := 0 },
                        reserved := some t, tail := some nt,
                        capacity := wsub s2.capacity N,
                        num_blocks := wsub s2.num_blocks 1 }
        else .ok s1

/-- `segmented_list::front`: `_head->_arr[0]` after the emptiness check. -/
def front (s : segmented_list α) : Except cerr α :=
  if s.size = 0 then .error .out_of_range
  else
    match s.head with
    | none => .error .null_deref
    | some h =>
      match find_block s.store h with
      | none => .error .null_deref
      | some hb => .ok (hb.arr.getD 0 default)

/-- `segmented_list::back`: `_tail->_arr[_tail->size() - 1]` after the
emptiness check. -/
def back (s : segmented_list α) : Except cerr α :=
  if s.size = 0 then .error .out_of_range
  else
    match s.tail with
    | none => .error .null_deref
    | some t =>
      match find_block s.store t with
      | none => .error .null_deref
      | some tb => .ok (tb.arr.getD (wsub tb.size 1) default)

/-- The forward walk in `at`: `block_number` iterations of
`if (current_node) current_node = current_node->_next; else throw`. -/
def walk_next (st : List (Nat × list_block α)) :
    Option Nat → Nat → Except cerr (Option Nat)
  | cur, 0 => .ok cur
  | cur, k + 1 =>
    match cur with
    | none => .error .out_of_range
    | some c =>
      match find_block st c with
      | none => .error .null_deref
      | some b => walk_next st b.next k

/-- The backward walk in `at`: `num_times` iterations of
`if (current_node) current_node = current_node->_previous; else throw`. -/
def walk_prev (st : List (Nat × list_block α)) :
    Option Nat → Nat → Except cerr (Option Nat)
  | cur, 0 => .ok cur
  | cur, k + 1 =>
    match cur with
    | none => .error .out_of_range
    | some c =>
      match find_block st c with
      | none => .error .null_deref
      | some b => walk_prev st b.previous k

/-- `segmented_list::at`: bounds check against `_size`, locate the owning
block by nearest-end traversal (`head` direct, `tail` direct, forward walk,
or backward walk), then re-check the index against the block's own count. -/
def at_idx (N : Nat) (s : segmented_list α) (n : Nat) : Except cerr α :=
  if n < s.size then
    match (if n / N = 0 then .ok s.head
      else if n / N = wsub s.num_blocks 1 then .ok s.tail
      else if n / N ≤ s.num_blocks / 2 then
        walk_next s.store s.head (n / N)
      else
        walk_prev s.store s.tail (wsub (wsub s.num_blocks (n / N)) 1)
      : Except cerr (Option Nat)) with
    | .error e => .error e
    | .ok none => .error .null_deref
    | .ok (some c) =>
      match find_block s.store c with
      | none => .error .null_deref
      | some b =>
        if n % N < b.size then .ok (b.arr.getD (n % N) default)
        else .error .out_of_range
  else .error .out_of_range

/-- The three iterator states of `list_iterator`. -/
inductive iter_state : Type
  | iter_valid
  | before_begin
  | past_end
deriving DecidableEq

/-- Model of `list_iterator`: the state tag, the `_block_pointer` (an
optional block id, since the pointer may be null) and `_elem_index`.
Iterator equality in the source compares exactly these three fields. -/
structure list_iterator : Type where
  state : iter_state
  block_pointer : Option Nat
  elem_index : Nat
deriving DecidableEq

/-- `segmented_list::begin`: `(head, 0)` valid when non-empty, else a
`before_begin` sentinel still carrying `_head`. -/
def begin (s : segmented_list α) : list_iterator :=
  if s.size = 0 then ⟨.before_begin, s.head, 0⟩
  else ⟨.iter_valid, s.head, 0⟩

/-- `segmented_list::end` (named `iend` since `end` is reserved in Lean):
`iterator(_tail, _tail->size(), past_end)` — note that the source
dereferences `_tail` unconditionally. -/
def iend (s : segmented_list α) : Except cerr list_iterator :=
  match s.tail with
  | none => .error .null_deref
  | some t =>
    match find_block s.store t with
    | none => .error .null_deref
    | some tb => .ok ⟨.past_end, some t, tb.size⟩

/-- `list_iterator::operator++`: bump the index; at the physical block
boundary move to `_next` or collapse to `past_end`; at the live-element
boundary of a partial block collapse to `past_end`; otherwise throw when the
iterator is not in the valid state. -/
def iter_inc (N : Nat) (s : segmented_list α) (it : list_iterator) :
    Except cerr list_iterator :=
  match it.state with
  | .iter_valid =>
    let i := it.elem_index + 1
    if i = N then
      match it.block_pointer with
      | none => .error .null_deref
      | some bp =>
        match find_block s.store bp with
        | none => .error .null_deref
        | some b =>
          match b.next with
          | some nb => .ok ⟨.iter_valid, some nb, 0⟩
          | none => .ok ⟨.past_end, some bp, i⟩
    else
      match it.block_pointer with
      | none => .error .null_deref
      | some bp =>
        match find_block s.store bp with
        | none => .error .null_deref
        | some b =>
          if i = b.size then .ok ⟨.past_end, some bp, i⟩
          else .ok ⟨.iter_valid, some bp, i⟩
  | _ => .error .out_of_range

/-- `list_iterator::operator--`: from a valid position retreat within the
block or to `_previous` (index `N - 1`) or to `before_begin`; from
`past_end` re-enter at `_block_pointer->size() - 1` (computed in wrapping
`size_t` arithmetic); from `before_begin` throw. -/
def iter_dec (N : Nat) (s : segmented_list α) (it : list_iterator) :
    Except cerr list_iterator :=
  match it.state with
  | .iter_valid =>
    if it.elem_index = 0 then
      match it.block_pointer with
      | none => .error .null_deref
      | some bp =>
        match find_block s.store bp with
        | none => .error .null_deref
        | some b =>
          match b.previous with
          | some pb => .ok ⟨.iter_valid, some pb, wsub N 1⟩
          | none => .ok ⟨.before_begin, some bp, 0⟩
    else .ok ⟨.iter_valid, it.block_pointer, wsub it.elem_index 1⟩
  | .past_end =>
    match it.block_pointer with
    | none => .error .null_deref
    | some bp =>
      match find_block s.store bp with
      | none => .error .null_deref
      | some b => .ok ⟨.iter_valid, some bp, wsub b.size 1⟩
  | .before_begin => .error .out_of_range

/-- `list_iterator::operator*` (read): requires the valid state and
`_elem_index < _block_pointer->capacity()`; note the bound is the capacity
`N`, not the live count. -/
def iter_read (N : Nat) (s : segmented_list α) (it : list_iterator) :
    Except cerr α :=
  match it.state with
  | .iter_valid =>
    match it.block_pointer with
    | none => .error .null_deref
    | some bp =>
      match find_block s.store bp with
      | none => .error .null_deref
      | some b =>
        if it.elem_index < N then .ok (b.arr.getD it.elem_index default)
        else .error .out_of_range
  | _ => .error .out_of_range

/-- Assignment through `list_iterator::operator*`: same checks as the read,
then a store into the block's array slot.  (`insert` assigns through the
`position` iterator this way.) -/
def iter_write (N : Nat) (s : segmented_list α) (it : list_iterator) (v : α) :
    mres α :=
  match it.state with
  | .iter_valid =>
    match it.block_pointer with
    | none => .error (.null_deref, s)
    | some bp =>
      match find_block s.store bp with
      | none => .error (.null_deref, s)
      | some b =>
        if it.elem_index < N then
          .ok { s with store := set_block s.store bp { b with arr := b.arr.set it.elem_index v } }
        else .error (.out_of_range, s)
  | _ => .error (.out_of_range, s)

/-- The shifting loop of `insert`:
`while (old_position.base() != position) { *new_position = *old_position;
old_position++; new_position++; }` where both are `std::reverse_iterator`s
(dereference reads one before the base; `++` retreats the base).  The loop
is modelled with explicit fuel; `np`/`op` are the bases of `new_position`
and `old_position`. -/
def insert_loop (N : Nat) (pos : list_iterator) :
    segmented_list α → list_iterator → list_iterator → Nat → mres α
  | s, _, _, 0 => .error (.fuel_exhausted, s)
  | s, np, op, fuel + 1 =>
    if op = pos then .ok s
    else
      match iter_dec N s np with
      | .error e => .error (e, s)
      | .ok wt =>
        match iter_dec N s op with
        | .error e => .error (e, s)
        | .ok rt =>
          match iter_read N s rt with
          | .error e => .error (e, s)
          | .ok v =>
            match iter_write N s wt v with
            | .error es => .error es
            | .ok s1 =>
              match iter_dec N s1 op with
              | .error e => .error (e, s1)
              | .ok op1 =>
                match iter_dec N s1 np with
                | .error e => .error (e, s1)
                | .ok np1 => insert_loop N pos s1 np1 op1 fuel

/-- `segmented_list::insert`: increment `_size`, allocate one block when
`_size >= _capacity`, set up `new_position = rbegin()` and
`old_position = ++new_position` (the pre-increment also moves
`new_position`, so both bases coincide), run the shifting loop, then write
`val` through `position`. -/
def insert (N : Nat) (fuel : Nat) (s : segmented_list α) (pos : list_iterator)
    (v : α) : mres α :=
  let s0 : segmented_list α := { s with size := s.size + 1 }
  match (if s0.capacity ≤ s0.size then alloc_block N s0 else .ok s0 : mres α) with
  | .error e => .error e
  | .ok s1 =>
    match iend s1 with
    | .error e => .error (e, s1)
    | .ok e0 =>
      match iter_dec N s1 e0 with
      | .error e => .error (e, s1)
      | .ok b0 =>
        match insert_loop N pos s1 b0 b0 fuel with
        | .error es => .error es
        | .ok s2 => iter_write N s2 pos v

/-- The shifting loop of `erase`:
`while (next != this->end()) { *cur = *next; cur++; next++; }` with plain
iterators (`this->end()` is recomputed, and dereferences `_tail`, on every
test). -/
def erase_loop (N : Nat) :
    segmented_list α → list_iterator → list_iterator → Nat → mres α
  | s, _, _, 0 => .error (.fuel_exhausted, s)
  | s, cur, nxt, fuel + 1 =>
    match iend s with
    | .error e => .error (e, s)
    | .ok e0 =>
      if nxt = e0 then .ok s
      else
        match iter_read N s nxt with
        | .error e => .error (e, s)
        | .ok v =>
          match iter_write N s cur v with
          | .error es => .error es
          | .ok s1 =>
            match iter_inc N s1 cur with
            | .error e => .error (e, s1)
            | .ok cur1 =>
              match iter_inc N s1 nxt with
              | .error e => .error (e, s1)
              | .ok nxt1 => erase_loop N s1 cur1 nxt1 fuel

/-- `segmented_list::erase`: `cur = position; next = ++cur` (the
pre-increment moves `cur`, so both coincide), run the shifting loop,
decrement `_size`, and if `_tail->empty()` reclaim the tail block — with the
reserved/free branches the source wrote (cache when `_reserved` is occupied,
free otherwise), and no capacity or block-count update in either branch. -/
def erase (N : Nat) (fuel : Nat) (s : segmented_list α) (pos : list_iterator) :
    mres α :=
  match iter_inc N s pos with
  | .error e => .error (e, s)
  | .ok cur1 =>
    match erase_loop N s cur1 cur1 fuel with
    | .error es => .error es
    | .ok s1 =>
      let s2 : segmented_list α := { s1 with size := wsub s1.size 1 }
      match s2.tail with
      | none => .error (.null_deref, s2)
      | some t =>
        match find_block s2.store t with
        | none => .error (.null_deref, s2)
        | some tb =>
          if tb.size = 0 then
            match s2.reserved with
            | some _ =>
              .ok { s2 with
                    reserved := some t, tail := tb.previous,
                    store := set_block s2.store t
                      { tb with size := 0, previous := none, next := none } }
            | none =>
              let s3 : segmented_list α := { s2 with tail := tb.previous }
              match tb.previous with
              | none => .error (.null_deref, s3)
              | some nt =>
                match find_block s3.store nt with
                | none => .error (.null_deref, s3)
                | some ntb =>
                  .ok { s3 with
                        store := remove_block
                          (set_block s3.store nt { ntb with next := none }) t }
          else .ok s2

/-- The deallocation walk of `clear`: destroy every block from `_head`
along the `_next` links. -/
def clear_loop :
    List (Nat × list_block α) → Option Nat → Nat →
      Except cerr (List (Nat × list_block α))
  | _, _, 0 => .error .fuel_exhausted
  | st, cur, fuel + 1 =>
    match cur with
    | none => .ok st
    | some c =>
      match find_block st c with
      | none => .error .null_deref
      | some b => clear_loop (remove_block st c) b.next fuel

/-- `segmented_list::clear`: free the chain, free the reserved block if
present, and reset every scalar field and link to zero or null. -/
def clear (s : segmented_list α) (fuel : Nat) : mres α :=
  match clear_loop s.store s.head fuel with
  | .error e => .error (e, s)
  | .ok st1 =>
    let st2 := match s.reserved with
      | some r => remove_block st1 r
      | none => st1
    .ok { s with
          store := st2, reserved := none, head := none, tail := none,
          size := 0, capacity := 0, num_blocks := 0 }

/-- The default-constructed container: all pointers null, all counts zero. -/
def empty_list : segmented_list α :=
  { store := [], next_id := 0, head := none, tail := none, reserved := none,
    size := 0, capacity := 0, num_blocks := 0, alloc_count := 0 }

/-- Repeated `push_back`, used to model construction from a sequence (the
spec defines the construction variants as loops of `append`). -/
def push_all (N : Nat) : segmented_list α → List α → mres α
  | s, [] => .ok s
  | s, v :: rest =>
    match push_back N s v with
    | .ok s1 => push_all N s1 rest
    | .error e => .error e

/-- Build a container by appending every element of `vs` to the empty one. -/
def from_list (N : Nat) (vs : List α) : mres α :=
  push_all N empty_list vs

/-- Sum of the live counts of the blocks along the chain from `head`
(fuel-bounded walk along `_next`). -/
def chain_count_sum (st : List (Nat × list_block α)) :
    Option Nat → Nat → Option Nat
  | none, _ => some 0
  | some _, 0 => none
  | some c, fuel + 1 =>
    match find_block st c with
    | none => none
    | some b =>
      match chain_count_sum st b.next fuel with
      | none => none
      | some rest => some (b.size + rest)

/-!
## Canonical states

The state reached from the empty container by a sequence of `push_back`
calls has a closed form: blocks `0, 1, …, m - 1` hold consecutive chunks of
`N` appended values (the allocation order means the association list stores
them newest first), every block except the tail is full, and the scalar
fields are determined by the number of appended values.
-/

/-- `_previous` link of block `j` in a push-built chain. -/
def block_prev (j : Nat) : Option Nat :=
  if j = 0 then none else some (j - 1)

/-- `_next` link of block `j` in a push-built chain of `m` blocks. -/
def block_next (m j : Nat) : Option Nat :=
  if j = m - 1 then none else some (j + 1)

/-- The `j`-th chunk of at most `N` consecutive values of `vs`. -/
def chunk (N : Nat) (vs : List α) (j : Nat) : List α :=
  (vs.drop (j * N)).take N

/-- The array contents of block `j`: its chunk of values followed by the
default-constructed slots that were never written. -/
def canon_arr (N : Nat) (vs : List α) (j : Nat) : List α :=
  chunk N vs j ++ List.replicate (N - (chunk N vs j).length) default

/-- The live count of block `j`. -/
def canon_count (N : Nat) (vs : List α) (j : Nat) : Nat :=
  min (vs.length - j * N) N

/-- Block `j` of the push-built chain of `m` blocks holding `vs`. -/
def canon_block (N : Nat) (vs : List α) (m j : Nat) : list_block α :=
  { arr := canon_arr N vs j, previous := block_prev j,
    next := block_next m j, size := canon_count N vs j }

/-- Number of blocks needed for `len` values: `⌈len / N⌉`. -/
def nblocks (N len : Nat) : Nat :=
  (len + N - 1) / N

/-- An id-to-block heap holding the blocks `m - 1, …, 0` (newest first),
with block `j` given by `g j`. -/
def idmap (g : Nat → list_block α) (m : Nat) : List (Nat × list_block α) :=
  ((List.range m).reverse).map (fun j => (j, g j))

/-- The heap of the push-built container: blocks `m - 1, …, 0` in
allocation order (newest first). -/
def canon_store (N : Nat) (vs : List α) : List (Nat × list_block α) :=
  idmap (canon_block N vs (nblocks N vs.length)) (nblocks N vs.length)

/-- Shape of a block: its links and live count, ignoring the array
contents (popped slots legitimately keep their stale values). -/
def block_shape (b : list_block α) : Option Nat × Option Nat × Nat :=
  (b.previous, b.next, b.size)

/-- Shape of a heap: every block's id, links and count. -/
def store_shape (st : List (Nat × list_block α)) :
    List (Nat × (Option Nat × Option Nat × Nat)) :=
  st.map (fun p => (p.1, block_shape p.2))

/-- Two states agree on size, capacity and the complete block topology:
head, tail, reserved, block count, and every block's links and count. -/
def topo_eq (s s' : segmented_list α) : Prop :=
  s.head = s'.head ∧ s.tail = s'.tail ∧ s.reserved = s'.reserved ∧
  s.size = s'.size ∧ s.capacity = s'.capacity ∧ s.num_blocks = s'.num_blocks ∧
  store_shape s.store = store_shape s'.store

/-- `topo_eq` plus agreement on the allocator bookkeeping. -/
def shape_eq (s s' : segmented_list α) : Prop :=
  topo_eq s s' ∧ s.next_id = s'.next_id ∧ s.alloc_count = s'.alloc_count

/-- The container state reached by appending the elements of `vs` in order
to the empty container. -/
def canonical (N : Nat) (vs : List α) : segmented_list α :=
  { store := canon_store N vs,
    next_id := nblocks N vs.length,
    head := if nblocks N vs.length = 0 then none else some 0,
    tail := if nblocks N vs.length = 0 then none else some (nblocks N vs.length - 1),
    reserved := none,
    size := vs.length,
    capacity := nblocks N vs.length * N,
    num_blocks := nblocks N vs.length,
    alloc_count := nblocks N vs.length }

/-!
## Concrete runs exhibiting divergences between the code and the spec
-/

/-- C3: the claim says `pop_back` succeeds on every non-empty container, and
that removing the only element of a single-block container detaches that
block and leaves a well-formed empty container.  The code instead computes
`new_tail = _tail->_previous` (null for the only block) and writes through it
without a check: popping the single element of a one-block container
dereferences a null pointer. -/
theorem C3_pop_back_single_block_null_deref :
    errKind (Except.bind (from_list 21 ([10] : List Nat)) (pop_back 21)) =
      some .null_deref := by
  rfl

/-- C7: the claim says iteration works for every container including the
empty one, but `end()` evaluates `_tail->size()` unconditionally, so merely
forming the `end()` iterator of an empty container dereferences the null
`_tail` pointer. -/
theorem C7_end_on_empty_null_deref :
    iend (empty_list (α := Nat)) = .error .null_deref := by
  rfl

/-- C10: the claim says a present reserved block is always fully detached
(no links, count 0, not in the chain).  `_alloc_block` never clears
`_reserved` after attaching it as the new tail: after `push_back 10`,
`push_back 20`, `pop_back`, `push_back 30` with block size 1, `_reserved`
still points at block 1, which is now the chain's tail, is linked from block
0, and holds one live element. -/
theorem C10_reserved_aliases_tail :
    errKind (Except.bind (Except.bind (from_list 1 ([10, 20] : List Nat))
        (pop_back 1)) (fun s => push_back 1 s 30)) = none ∧
    (resState (Except.bind (Except.bind (from_list 1 ([10, 20] : List Nat))
        (pop_back 1)) (fun s => push_back 1 s 30))).reserved = some 1 ∧
    (resState (Except.bind (Except.bind (from_list 1 ([10, 20] : List Nat))
        (pop_back 1)) (fun s => push_back 1 s 30))).tail = some 1 ∧
    (find_block (resState (Except.bind (Except.bind
        (from_list 1 ([10, 20] : List Nat)) (pop_back 1))
        (fun s => push_back 1 s 30))).store 1).map list_block.size = some 1 := by
  exact ⟨rfl, rfl, rfl, rfl⟩

/-- C4: the claim says every public mutation preserves
`size = Σ block.count`.  `insert` increments `_size` but never increments
any block's count: inserting into the one-element container `[10]` leaves
`size = 2` while the blocks of the chain hold a single live element. -/
theorem C4_insert_breaks_size_sum :
    errKind (Except.bind (from_list 21 ([10] : List Nat))
        (fun s => insert 21 100 s (begin s) 99)) = none ∧
    (resState (Except.bind (from_list 21 ([10] : List Nat))
        (fun s => insert 21 100 s (begin s) 99))).size = 2 ∧
    chain_count_sum
        (resState (Except.bind (from_list 21 ([10] : List Nat))
          (fun s => insert 21 100 s (begin s) 99))).store
        (resState (Except.bind (from_list 21 ([10] : List Nat))
          (fun s => insert 21 100 s (begin s) 99))).head 100 = some 1 := by
  exact ⟨rfl, rfl, rfl⟩

/-- C6: the claim says `insert(p, v)` followed by `erase(p)` restores the
original sequence.  In `insert`, `old_position = ++new_position` moves both
reverse iterators to the same base (so the shifting loop only self-assigns)
and no block count is bumped, and `erase` has the matching `next = ++cur`
aliasing; on `[10, 20, 30]`, inserting 99 before position 1 and erasing at
position 1 yields `at(1) = 99`, not the original `at(1) = 20`. -/
theorem C6_insert_erase_not_inverse :
    at_idx 21 (resState (from_list 21 ([10, 20, 30] : List Nat))) 1 = .ok 20 ∧
    errKind (Except.bind (Except.bind (from_list 21 ([10, 20, 30] : List Nat))
        (fun s => insert 21 100 s ⟨.iter_valid, some 0, 1⟩ 99))
        (fun s => erase 21 100 s ⟨.iter_valid, some 0, 1⟩)) = none ∧
    (resState (Except.bind (Except.bind (from_list 21 ([10, 20, 30] : List Nat))
        (fun s => insert 21 100 s ⟨.iter_valid, some 0, 1⟩ 99))
        (fun s => erase 21 100 s ⟨.iter_valid, some 0, 1⟩))).size = 3 ∧
    at_idx 21 (resState (Except.bind (Except.bind
        (from_list 21 ([10, 20, 30] : List Nat))
        (fun s => insert 21 100 s ⟨.iter_valid, some 0, 1⟩ 99))
        (fun s => erase 21 100 s ⟨.iter_valid, some 0, 1⟩))) 1 = .ok 99 := by
  exact ⟨rfl, rfl, rfl, rfl⟩

/-- C5: the claim says an erase that empties the tail block reclaims it with
the same policy as `remove_last`, decreasing capacity by `N` and the block
count by 1.  `erase` never decrements the tail block's own count (so the
tail never appears empty), and its reclaim branches are the reverse of
`pop_back`'s anyway: erasing the last element of a two-block container with
block size 1 leaves `capacity = 2`, `num_blocks = 2`, and no reserved
block. -/
theorem C5_erase_does_not_reclaim :
    errKind (Except.bind (from_list 1 ([10, 20] : List Nat))
        (fun s => erase 1 100 s ⟨.iter_valid, some 1, 0⟩)) = none ∧
    (resState (Except.bind (from_list 1 ([10, 20] : List Nat))
        (fun s => erase 1 100 s ⟨.iter_valid, some 1, 0⟩))).size = 1 ∧
    (resState (Except.bind (from_list 1 ([10, 20] : List Nat))
        (fun s => erase 1 100 s ⟨.iter_valid, some 1, 0⟩))).capacity = 2 ∧
    (resState (Except.bind (from_list 1 ([10, 20] : List Nat))
        (fun s => erase 1 100 s ⟨.iter_valid, some 1, 0⟩))).num_blocks = 2 ∧
    (resState (Except.bind (from_list 1 ([10, 20] : List Nat))
        (fun s => erase 1 100 s ⟨.iter_valid, some 1, 0⟩))).reserved = none := by
  exact ⟨rfl, rfl, rfl, rfl, rfl⟩

/-- C2 counterexample: the claim quantifies over every container state, but
starting from the empty container `push_back` followed by `pop_back` does
not restore anything — it dereferences the null `_previous` pointer of the
single block (the state at the fault still holds the pushed element). -/
theorem C2_cex_empty_roundtrip_faults :
    errKind (Except.bind (push_back 21 (empty_list (α := Nat)) 7)
        (pop_back 21)) = some .null_deref ∧
    (resState (Except.bind (push_back 21 (empty_list (α := Nat)) 7)
        (pop_back 21))).num_blocks = 1 := by
  exact ⟨rfl, rfl⟩

/-- C8 counterexample: the claim says `insert` changes the block topology
only when the new size exceeds the capacity.  The code grows on
`_size >= _capacity`: with block size 2 and one stored element, the new size
2 equals the capacity 2, yet `insert` allocates — the block count goes from
1 to 2 and the capacity from 2 to 4. -/
theorem C8_cex_insert_grows_at_equal_capacity :
    (resState (from_list 2 ([10] : List Nat))).size + 1 ≤
      (resState (from_list 2 ([10] : List Nat))).capacity ∧
    (resState (from_list 2 ([10] : List Nat))).num_blocks = 1 ∧
    (resState (insert 2 100 (resState (from_list 2 ([10] : List Nat)))
        (begin (resState (from_list 2 ([10] : List Nat)))) 99)).num_blocks = 2 ∧
    (resState (insert 2 100 (resState (from_list 2 ([10] : List Nat)))
        (begin (resState (from_list 2 ([10] : List Nat)))) 99)).capacity = 4 := by
  exact ⟨by decide, rfl, rfl, rfl⟩


/-!
## Helper lemmas: arithmetic of block counts, heap operations, and the
push-step characterisation of canonical states
-/

set_option linter.unusedSectionVars false

theorem wsub_of_le {a b : Nat} (h : b ≤ a) : wsub a b = a - b := by
  simp [wsub, h]

theorem nblocks_zero (N : Nat) : nblocks N 0 = 0 := by
  rcases Nat.eq_zero_or_pos N with h | h
  · subst h; rfl
  · unfold nblocks
    exact Nat.div_eq_of_lt (by omega)

theorem nblocks_eq {N len : Nat} (hN : 0 < N) (hl : 0 < len) :
    nblocks N len = (len - 1) / N + 1 := by
  unfold nblocks
  rw [show len + N - 1 = (len - 1) + N by omega, Nat.add_div_right _ hN]

theorem le_nblocks_mul {N : Nat} (hN : 0 < N) (len : Nat) :
    len ≤ nblocks N len * N := by
  rcases Nat.eq_zero_or_pos len with h | h
  · simp [h]
  · rw [nblocks_eq hN h]
    rw [show ((len - 1) / N + 1) * N = N * ((len - 1) / N) + N by ring]
    have h0 := Nat.div_add_mod (len - 1) N
    have h2 : (len - 1) % N < N := Nat.mod_lt _ hN
    generalize hq : N * ((len - 1) / N) = Q at h0 ⊢
    omega

theorem nblocks_sub_one_mul_lt {N len : Nat} (hN : 0 < N) (hl : 0 < len) :
    (nblocks N len - 1) * N < len := by
  rw [nblocks_eq hN hl]
  simp only [Nat.add_sub_cancel]
  rw [show (len - 1) / N * N = N * ((len - 1) / N) by ring]
  have h0 := Nat.div_add_mod (len - 1) N
  generalize hq : N * ((len - 1) / N) = Q at h0 ⊢
  omega

theorem nblocks_pos {N len : Nat} (hN : 0 < N) (hl : 0 < len) :
    0 < nblocks N len := by
  rw [nblocks_eq hN hl]; exact Nat.succ_pos _

theorem nblocks_mul {N : Nat} (hN : 0 < N) (q : Nat) : nblocks N (q * N) = q := by
  rcases Nat.eq_zero_or_pos q with h | h
  · subst h; simpa using nblocks_zero N
  · obtain ⟨k, rfl⟩ : ∃ k, q = k + 1 := ⟨q - 1, by omega⟩
    have hp : 0 < (k + 1) * N := by positivity
    rw [nblocks_eq hN hp]
    rw [show (k + 1) * N - 1 = (N - 1) + k * N by
      have h1 : (k + 1) * N = k * N + N := by ring
      generalize hA : (k + 1) * N = A at h1 ⊢
      generalize hB : k * N = B at h1 ⊢
      omega]
    rw [Nat.add_mul_div_right _ _ hN]
    rw [Nat.div_eq_of_lt (by omega : N - 1 < N)]
    omega

theorem div_sub_one_of_mod_ne {N len : Nat} (hN : 0 < N) (h : len % N ≠ 0) :
    (len - 1) / N = len / N := by
  have h0 := Nat.div_add_mod len N
  have h2 : len % N < N := Nat.mod_lt _ hN
  rw [show len - 1 = (len % N - 1) + N * (len / N) by omega]
  rw [Nat.add_mul_div_left _ _ hN]
  rw [Nat.div_eq_of_lt (by omega : len % N - 1 < N)]
  omega

theorem nblocks_succ_of_mod {N len : Nat} (hN : 0 < N) (h : len % N ≠ 0) :
    nblocks N (len + 1) = nblocks N len := by
  have hl : 0 < len := by
    rcases Nat.eq_zero_or_pos len with h' | h'
    · subst h'; simp at h
    · exact h'
  rw [nblocks_eq hN (by omega), nblocks_eq hN hl]
  simp only [Nat.add_sub_cancel]
  rw [div_sub_one_of_mod_ne hN h]

theorem nblocks_mul_succ {N : Nat} (hN : 0 < N) (q : Nat) :
    nblocks N (q * N + 1) = q + 1 := by
  rw [nblocks_eq hN (by omega)]
  simp only [Nat.add_sub_cancel]
  rw [Nat.mul_div_cancel _ hN]

theorem len_eq_nblocks_mul_iff {N len : Nat} (hN : 0 < N) :
    len = nblocks N len * N ↔ len % N = 0 := by
  constructor
  · intro h
    conv_lhs => rw [h]
    exact Nat.mul_mod_left _ _
  · intro h
    have h0 := Nat.div_add_mod len N
    have h1 : len = len / N * N := by
      have h2 : len / N * N = N * (len / N) := Nat.mul_comm _ _
      omega
    rw [h1, nblocks_mul hN]

theorem idmap_succ (g : Nat → list_block α) (k : Nat) :
    idmap g (k + 1) = (k, g k) :: idmap g k := by
  simp [idmap, List.range_succ]

theorem find_idmap (g : Nat → list_block α) :
    ∀ {m i : Nat}, i < m → find_block (idmap g m) i = some (g i) := by
  intro m
  induction m with
  | zero => intro i hi; omega
  | succ k ih =>
    intro i hi
    rw [idmap_succ]
    by_cases h : k = i
    · subst h; simp [find_block]
    · rw [show find_block ((k, g k) :: idmap g k) i
          = if k = i then some (g k) else find_block (idmap g k) i from rfl]
      rw [if_neg h]
      exact ih (by omega)

theorem set_idmap_top (g : Nat → list_block α) (k : Nat) (b : list_block α) :
    set_block (idmap g (k + 1)) k b = (k, b) :: idmap g k := by
  rw [idmap_succ]
  rw [show set_block ((k, g k) :: idmap g k) k b
      = if k = k then (k, b) :: idmap g k else (k, g k) :: set_block (idmap g k) k b from rfl]
  rw [if_pos rfl]

theorem idmap_congr {g g' : Nat → list_block α} :
    ∀ {m : Nat}, (∀ j, j < m → g j = g' j) → idmap g m = idmap g' m := by
  intro m
  induction m with
  | zero => intro _; rfl
  | succ k ih =>
    intro h
    rw [idmap_succ, idmap_succ, h k (by omega), ih (fun j hj => h j (by omega))]

theorem chunk_length (N : Nat) (vs : List α) (j : Nat) :
    (chunk N vs j).length = min N (vs.length - j * N) := by
  simp [chunk]

theorem canon_count_eq (N : Nat) (vs : List α) (j : Nat) :
    canon_count N vs j = (chunk N vs j).length := by
  rw [chunk_length, canon_count, Nat.min_comm]

theorem chunk_append_of_le {N : Nat} {vs : List α} {j : Nat} (v : α)
    (h : j * N + N ≤ vs.length) : chunk N (vs ++ [v]) j = chunk N vs j := by
  unfold chunk
  rw [List.drop_append_eq_append_drop]
  rw [show j * N - vs.length = 0 from by omega]
  rw [List.drop_zero, List.take_append_eq_append_take]
  rw [show N - (vs.drop (j * N)).length = 0 from by
    rw [List.length_drop]; omega]
  simp

theorem chunk_whole {N : Nat} {vs : List α} {j : Nat}
    (h : vs.length ≤ j * N + N) : chunk N vs j = vs.drop (j * N) := by
  unfold chunk
  exact List.take_of_length_le (by rw [List.length_drop]; omega)

theorem chunk_append_tail {N : Nat} {vs : List α} {j : Nat} (v : α)
    (h1 : j * N ≤ vs.length) (h2 : vs.length - j * N < N) :
    chunk N (vs ++ [v]) j = chunk N vs j ++ [v] := by
  have hc : chunk N vs j = vs.drop (j * N) := chunk_whole (by omega)
  rw [hc]
  unfold chunk
  rw [List.drop_append_eq_append_drop]
  rw [show j * N - vs.length = 0 from by omega, List.drop_zero]
  rw [List.take_append_eq_append_take]
  rw [show List.take (N - (vs.drop (j * N)).length) [v] = [v] from
    List.take_of_length_le (by simp [List.length_drop]; omega)]
  rw [List.take_of_length_le (by rw [List.length_drop]; omega)]

theorem chunk_append_new {N : Nat} {vs : List α} {j : Nat} (v : α) (hN : 0 < N)
    (h : j * N = vs.length) : chunk N (vs ++ [v]) j = [v] := by
  unfold chunk
  rw [List.drop_append_eq_append_drop, h, List.drop_length]
  rw [show vs.length - vs.length = 0 from by omega, List.drop_zero]
  rw [List.nil_append]
  exact List.take_of_length_le (by simp; omega)

theorem set_append_len (A B : List α) (v : α) :
    (A ++ B).set A.length v = A ++ B.set 0 v := by
  rw [List.set_append, if_neg (by omega)]
  simp

theorem replicate_set_zero {n : Nat} (hn : 0 < n) (d v : α) :
    (List.replicate n d).set 0 v = v :: List.replicate (n - 1) d := by
  obtain ⟨k, rfl⟩ : ∃ k, n = k + 1 := ⟨n - 1, by omega⟩
  simp [List.replicate_succ]

theorem pad_set {N : Nat} (A : List α) (d v : α) (h : A.length < N) :
    (A ++ List.replicate (N - A.length) d).set A.length v
      = (A ++ [v]) ++ List.replicate (N - (A.length + 1)) d := by
  rw [set_append_len, replicate_set_zero (by omega), List.append_assoc]
  rw [List.singleton_append]
  rw [show N - A.length - 1 = N - (A.length + 1) from by omega]

theorem canon_arr_getD {N : Nat} {vs : List α} {j r : Nat}
    (hr : r < (chunk N vs j).length) :
    (canon_arr N vs j).getD r default = vs.getD (j * N + r) default := by
  unfold canon_arr
  rw [List.getD_append _ _ _ _ hr]
  have hrN : r < N := by
    have := chunk_length N vs j
    omega
  unfold chunk
  rw [List.getD_eq_getElem?_getD, List.getD_eq_getElem?_getD]
  rw [List.getElem?_take_of_lt hrN, List.getElem?_drop]

theorem idmap_zero (g : Nat → list_block α) : idmap g 0 = [] := rfl

theorem canon_block_stable {N : Nat} {vs : List α} {mo mn : Nat} (v : α) {j : Nat}
    (h : j * N + N ≤ vs.length) (hjo : j ≠ mo - 1 ∨ mo = mn)
    (hjn : j ≠ mn - 1 ∨ mo = mn) :
    canon_block N vs mo j = canon_block N (vs ++ [v]) mn j := by
  unfold canon_block canon_arr canon_count
  rw [chunk_append_of_le v h]
  have hlen : (vs ++ [v]).length = vs.length + 1 := by simp
  rw [hlen]
  rw [Nat.min_eq_right (by omega), Nat.min_eq_right (by omega)]
  rcases hjo with hjo | heq
  · rcases hjn with hjn | heq
    · unfold block_next
      rw [if_neg hjo, if_neg hjn]
    · rw [heq]
  · rw [heq]

theorem canon_block_push {N : Nat} {vs : List α} {k : Nat} (v : α)
    (h1 : k * N < vs.length) (h2 : vs.length < k * N + N) :
    (let tb := canon_block N vs (k + 1) k
     ({ tb with arr := tb.arr.set tb.size v, size := tb.size + 1 } : list_block α))
      = canon_block N (vs ++ [v]) (k + 1) k := by
  have hchl : (chunk N vs k).length = vs.length - k * N := by
    rw [chunk_length, Nat.min_eq_right (by omega)]
  have hcnt : canon_count N vs k = (chunk N vs k).length := canon_count_eq N vs k
  show ({ canon_block N vs (k + 1) k with
      arr := (canon_block N vs (k + 1) k).arr.set (canon_block N vs (k + 1) k).size v,
      size := (canon_block N vs (k + 1) k).size + 1 } : list_block α)
    = canon_block N (vs ++ [v]) (k + 1) k
  unfold canon_block canon_arr
  simp only [hcnt]
  rw [pad_set _ _ _ (by omega)]
  rw [chunk_append_tail v (by omega) (by omega)]
  have hlen2 : (chunk N (vs ++ [v]) k).length = (chunk N vs k).length + 1 := by
    rw [chunk_append_tail v (by omega) (by omega)]
    simp
  unfold canon_count
  have hlen3 : (vs ++ [v]).length = vs.length + 1 := by simp
  rw [hlen3]
  rw [show min (vs.length + 1 - k * N) N = (chunk N vs k).length + 1 from by
    rw [Nat.min_eq_left (by omega), hchl]; omega]
  rw [show (chunk N vs k ++ [v]).length = (chunk N vs k).length + 1 from by simp]

theorem canon_block_new {N : Nat} (hN : 0 < N) {vs : List α} {q : Nat} (v : α)
    (h : q * N = vs.length) :
    canon_block N (vs ++ [v]) (q + 1) q =
      { arr := (List.replicate N default).set 0 v,
        previous := if q = 0 then none else some (q - 1),
        next := none, size := 1 } := by
  unfold canon_block canon_arr canon_count
  rw [chunk_append_new v hN h]
  rw [replicate_set_zero hN]
  have hlen3 : (vs ++ [v]).length = vs.length + 1 := by simp
  rw [hlen3]
  rw [show min (vs.length + 1 - q * N) N = 1 from by
    rw [show vs.length + 1 - q * N = 1 from by omega]
    exact Nat.min_eq_left (by omega)]
  unfold block_prev block_next
  simp

theorem find_block_cons_eq {i : Nat} {b : list_block α} {st : List (Nat × list_block α)} :
    find_block ((i, b) :: st) i = some b := by
  simp [find_block]

theorem find_block_cons_ne {i j : Nat} (h : i ≠ j) {b : list_block α}
    {st : List (Nat × list_block α)} :
    find_block ((i, b) :: st) j = find_block st j := by
  simp [find_block, h]

theorem set_block_cons_eq {i : Nat} {b b' : list_block α}
    {st : List (Nat × list_block α)} :
    set_block ((i, b) :: st) i b' = (i, b') :: st := by
  simp [set_block]

theorem set_block_cons_ne {i j : Nat} (h : i ≠ j) {b b' : list_block α}
    {st : List (Nat × list_block α)} :
    set_block ((i, b) :: st) j b' = (i, b) :: set_block st j b' := by
  simp [set_block, h]

theorem canon_block_relink {N : Nat} {vs : List α} (v : α) {mo mn t : Nat}
    (h : t * N + N ≤ vs.length) (hns : ¬ t = mn - 1) :
    ({ canon_block N vs mo t with next := some (t + 1) } : list_block α)
      = canon_block N (vs ++ [v]) mn t := by
  unfold canon_block canon_arr canon_count block_next
  rw [chunk_append_of_le v h]
  have hlen : (vs ++ [v]).length = vs.length + 1 := by simp
  rw [hlen]
  rw [Nat.min_eq_right (by omega), Nat.min_eq_right (by omega)]
  rw [if_neg hns]

theorem boundary_endgame {N : Nat} (hN : 0 < N) {vs : List α} {t : Nat} (v : α)
    (hq : vs.length = (t + 1) * N)
    (hm' : nblocks N (vs.length + 1) = t + 1 + 1) :
    (Except.ok (segmented_list.mk
      ((t + 1, ({ arr := (List.replicate N default).set 0 v, previous := some t,
                  next := none, size := 0 + 1 } : list_block α)) ::
        (t, ({ arr := (canon_block N vs (t + 1) t).arr,
               previous := (canon_block N vs (t + 1) t).previous,
               next := some (t + 1),
               size := (canon_block N vs (t + 1) t).size } : list_block α)) ::
        idmap (canon_block N vs (t + 1)) t)
      (t + 1 + 1) (some 0) (some (t + 1)) none (vs.length + 1) ((t + 1) * N + N)
      (t + 1 + 1) (t + 1 + 1)) : mres α)
    = Except.ok (canonical N (vs ++ [v])) := by
  have hlen3 : (vs ++ [v]).length = vs.length + 1 := by simp
  refine congrArg Except.ok ?_
  rw [show canonical N (vs ++ [v]) = segmented_list.mk
      (canon_store N (vs ++ [v])) (nblocks N (vs ++ [v]).length)
      (if nblocks N (vs ++ [v]).length = 0 then none else some 0)
      (if nblocks N (vs ++ [v]).length = 0 then none
        else some (nblocks N (vs ++ [v]).length - 1))
      none (vs ++ [v]).length (nblocks N (vs ++ [v]).length * N)
      (nblocks N (vs ++ [v]).length) (nblocks N (vs ++ [v]).length) from rfl]
  rw [show canon_store N (vs ++ [v])
      = idmap (canon_block N (vs ++ [v]) (nblocks N (vs ++ [v]).length))
          (nblocks N (vs ++ [v]).length) from rfl]
  rw [hlen3, hm', idmap_succ, idmap_succ]
  simp only [segmented_list.mk.injEq, hlen3, hm', Nat.add_sub_cancel,
    Nat.succ_ne_zero, if_false, and_true, true_and]
  refine ⟨?_, by ring⟩
  refine congrArg₂ _ ?_ (congrArg₂ _ ?_ ?_)
  · refine congrArg _ ?_
    rw [canon_block_new hN v hq.symm]
    rw [if_neg (by omega)]
    simp
  · refine congrArg _ ?_
    have hx : (t + 1) * N = t * N + N := by ring
    exact @canon_block_relink α _ N vs v (t + 1) (t + 1 + 1) t (by omega) (by omega)
  · refine idmap_congr ?_
    intro j hj
    refine canon_block_stable v ?_ (Or.inl (by omega)) (Or.inl (by omega))
    have hmul : (j + 1) * N ≤ (t + 1) * N := Nat.mul_le_mul_right N (by omega)
    have hx : (j + 1) * N = j * N + N := by ring
    omega

set_option linter.unusedVariables false

theorem push_canonical {N : Nat} (hN : 0 < N) (vs : List α) (v : α) :
    push_back N (canonical N vs) v = .ok (canonical N (vs ++ [v])) := by
  have hlen3 : (vs ++ [v]).length = vs.length + 1 := by simp
  by_cases hmod : vs.length % N = 0
  · -- allocation: every block is full (or the chain is empty)
    have h0 := Nat.div_add_mod vs.length N
    obtain ⟨q, hq⟩ : ∃ q, vs.length = q * N := by
      refine ⟨vs.length / N, ?_⟩
      have h2 : vs.length / N * N = N * (vs.length / N) := Nat.mul_comm _ _
      omega
    have hm : nblocks N vs.length = q := by rw [hq, nblocks_mul hN]
    have hm' : nblocks N (vs.length + 1) = q + 1 := by
      rw [hq]; exact nblocks_mul_succ hN q
    have hcond : (canonical N vs).size = (canonical N vs).capacity := by
      show vs.length = nblocks N vs.length * N
      rw [hm, hq]
    rcases Nat.eq_zero_or_pos q with hq0 | hqpos
    · -- the empty container: allocate the very first block
      subst hq0
      have hvs : vs = [] := List.length_eq_zero.mp (by omega)
      subst hvs
      have hcan : canonical N ([] : List α)
          = segmented_list.mk [] 0 none none none 0 0 0 0 := by
        unfold canonical canon_store
        simp only [List.length_nil, nblocks_zero]
        simp [idmap_zero]
      have h1v : nblocks N 1 = 1 := by simpa using nblocks_mul_succ hN 0
      rw [hcan]
      unfold push_back alloc_block
      simp only [reduceIte, List.nil_append, find_block]
      rw [if_pos hN]
      rw [show canonical N [v] = segmented_list.mk (canon_store N [v]) (nblocks N 1)
          (if nblocks N 1 = 0 then none else some 0)
          (if nblocks N 1 = 0 then none else some (nblocks N 1 - 1))
          none 1 (nblocks N 1 * N) (nblocks N 1) (nblocks N 1) from rfl]
      rw [show canon_store N [v] = idmap (canon_block N [v] (nblocks N 1)) (nblocks N 1)
          from rfl]
      rw [h1v, idmap_succ, idmap_zero]
      have hblk : canon_block N [v] 1 0
          = ({ arr := (List.replicate N default).set 0 v, previous := none,
               next := none, size := 1 } : list_block α) := by
        have h := @canon_block_new α _ N hN ([] : List α) 0 v (by simp)
        simpa using h
      rw [hblk]
      simp [set_block_cons_eq]
    · -- at least one full block: allocate a fresh block behind the tail
      obtain ⟨t, ht⟩ : ∃ t, q = t + 1 := ⟨q - 1, by omega⟩
      subst ht
      have hres : (canonical N vs).reserved = none := rfl
      have hnid : (canonical N vs).next_id = t + 1 := hm
      have hnumb : (canonical N vs).num_blocks = t + 1 := hm
      have hsz : (canonical N vs).size = vs.length := rfl
      have hcap : (canonical N vs).capacity = (t + 1) * N := by
        show nblocks N vs.length * N = (t + 1) * N
        rw [hm]
      have hhead0 : (canonical N vs).head = some 0 := by
        show (if nblocks N vs.length = 0 then none else some 0) = some 0
        rw [hm, if_neg (by omega)]
      have htail0 : (canonical N vs).tail = some t := by
        show (if nblocks N vs.length = 0 then none
          else some (nblocks N vs.length - 1)) = some t
        rw [hm, if_neg (by omega)]
        simp
      have hstoreB : (canonical N vs).store
          = idmap (canon_block N vs (t + 1)) (t + 1) := by
        show canon_store N vs = _
        unfold canon_store
        rw [hm]
      have halloc : (canonical N vs).alloc_count = t + 1 := hm
      unfold push_back alloc_block
      rw [if_pos hcond]
      by_cases htz : t = 0
      · subst htz
        simp only [hres, hnid, hnumb, hsz, hcap, hhead0, htail0, hstoreB, halloc,
          Nat.zero_add, Nat.succ_ne_zero, find_block_cons_eq, set_block_cons_eq,
          find_block_cons_ne (show (1 : Nat) ≠ 0 from by omega),
          set_block_cons_ne (show (1 : Nat) ≠ 0 from by omega),
          reduceIte, hN,
          find_idmap (canon_block N vs 1) (show 0 < 1 from by omega),
          set_idmap_top]
        exact boundary_endgame hN v hq hm' 
      · simp only [hres, hnid, hnumb, hsz, hcap, hhead0, htail0, hstoreB, halloc,
          Nat.succ_ne_zero, find_block_cons_eq, set_block_cons_eq,
          (show ¬ (t + 1 = 1) from by omega),
          find_block_cons_ne (show t + 1 ≠ t from by omega),
          set_block_cons_ne (show t + 1 ≠ t from by omega),
          reduceIte, hN,
          find_idmap (canon_block N vs (t + 1)) (show t < t + 1 from by omega),
          set_idmap_top]
        exact boundary_endgame hN v hq hm' 
    
  · -- no allocation: the tail block has room
    have hlen : 0 < vs.length := by
      rcases Nat.eq_zero_or_pos vs.length with h | h
      · rw [h] at hmod; simp at hmod
      · exact h
    obtain ⟨k, hk⟩ : ∃ k, nblocks N vs.length = k + 1 :=
      ⟨nblocks N vs.length - 1, by have := nblocks_pos hN hlen; omega⟩
    have hle : vs.length ≤ (k + 1) * N := by
      have h := le_nblocks_mul hN vs.length; rw [hk] at h; exact h
    have hlt : k * N < vs.length := by
      have h := nblocks_sub_one_mul_lt hN hlen; rw [hk] at h; simpa using h
    have hne : vs.length ≠ (k + 1) * N := by
      intro h
      exact hmod ((len_eq_nblocks_mul_iff hN).mp (by rw [hk]; exact h))
    have hsm : (k + 1) * N = k * N + N := by ring
    have hm' : nblocks N (vs.length + 1) = k + 1 := by
      rw [nblocks_succ_of_mod hN hmod, hk]
    have hcond : ¬ ((canonical N vs).size = (canonical N vs).capacity) := by
      show ¬ (vs.length = nblocks N vs.length * N)
      rw [hk]; omega
    have htail : (canonical N vs).tail = some k := by
      show (if nblocks N vs.length = 0 then none else some (nblocks N vs.length - 1))
        = some k
      rw [hk]; simp
    have hstore : (canonical N vs).store = idmap (canon_block N vs (k + 1)) (k + 1) := by
      show canon_store N vs = _
      unfold canon_store
      rw [hk]
    have hfind : find_block (canonical N vs).store k
        = some (canon_block N vs (k + 1) k) := by
      rw [hstore]; exact find_idmap _ (by omega)
    have hsize_lt : (canon_block N vs (k + 1) k).size < N := by
      show canon_count N vs k < N
      unfold canon_count
      rw [Nat.min_eq_left (by omega)]
      omega
    unfold push_back
    rw [if_neg hcond]
    simp only [htail, hfind]
    rw [if_pos hsize_lt]
    refine congrArg Except.ok ?_
    rw [show canonical N (vs ++ [v]) = segmented_list.mk
        (canon_store N (vs ++ [v])) (nblocks N (vs ++ [v]).length)
        (if nblocks N (vs ++ [v]).length = 0 then none else some 0)
        (if nblocks N (vs ++ [v]).length = 0 then none
          else some (nblocks N (vs ++ [v]).length - 1))
        none (vs ++ [v]).length (nblocks N (vs ++ [v]).length * N)
        (nblocks N (vs ++ [v]).length) (nblocks N (vs ++ [v]).length) from rfl]
    rw [show (canonical N vs) = segmented_list.mk
        (canon_store N vs) (nblocks N vs.length)
        (if nblocks N vs.length = 0 then none else some 0)
        (if nblocks N vs.length = 0 then none else some (nblocks N vs.length - 1))
        none vs.length (nblocks N vs.length * N)
        (nblocks N vs.length) (nblocks N vs.length) from rfl]
    simp only [segmented_list.mk.injEq, hlen3, hm', hk, Nat.add_sub_cancel,
      Nat.succ_ne_zero, if_false, and_true, true_and]
    -- only the store equality remains
    show set_block (canon_store N vs) k _ = canon_store N (vs ++ [v])
    unfold canon_store
    rw [hlen3, hm', hk]
    rw [set_idmap_top, idmap_succ]
    refine congrArg₂ _ ?_ ?_
    · refine congrArg _ ?_
      exact canon_block_push v hlt (by omega)
    · refine idmap_congr ?_
      intro j hj
      refine canon_block_stable v ?_ (Or.inr rfl) (Or.inr rfl)
      have hmul : (j + 1) * N ≤ k * N := Nat.mul_le_mul_right N (by omega)
      have : (j + 1) * N = j * N + N := by ring
      omega

theorem push_all_canonical {N : Nat} (hN : 0 < N) (ws : List α) :
    ∀ vs : List α, push_all N (canonical N vs) ws = .ok (canonical N (vs ++ ws)) := by
  induction ws with
  | nil => intro vs; simp [push_all]
  | cons w ws ih =>
    intro vs
    rw [push_all, push_canonical hN vs w]
    show push_all N (canonical N (vs ++ [w])) ws = _
    rw [ih (vs ++ [w])]
    simp

theorem canonical_nil (N : Nat) : canonical N ([] : List α) = empty_list := by
  unfold canonical canon_store empty_list
  simp only [List.length_nil, nblocks_zero]
  simp [idmap_zero]

theorem from_list_canonical {N : Nat} (hN : 0 < N) (vs : List α) :
    from_list N vs = .ok (canonical N vs) := by
  unfold from_list
  rw [← canonical_nil N, push_all_canonical hN]
  simp

theorem walk_next_idmap (g : Nat → list_block α) {m : Nat}
    (hg : ∀ j, j < m → (g j).next = block_next m j) :
    ∀ (k j : Nat), j + k < m → walk_next (idmap g m) (some j) k = .ok (some (j + k)) := by
  intro k
  induction k with
  | zero => intro j hj; rfl
  | succ k ih =>
    intro j hj
    rw [walk_next, find_idmap g (by omega)]
    show walk_next (idmap g m) (g j).next k = _
    rw [hg j (by omega)]
    unfold block_next
    rw [if_neg (by omega)]
    rw [show j + (k + 1) = (j + 1) + k from by omega]
    exact ih (j + 1) (by omega)

theorem walk_prev_idmap (g : Nat → list_block α) {m : Nat}
    (hg : ∀ j, j < m → (g j).previous = block_prev j) :
    ∀ (k j : Nat), k ≤ j → j < m →
      walk_prev (idmap g m) (some j) k = .ok (some (j - k)) := by
  intro k
  induction k with
  | zero => intro j hk hj; rfl
  | succ k ih =>
    intro j hk hj
    rw [walk_prev, find_idmap g hj]
    show walk_prev (idmap g m) (g j).previous k = _
    rw [hg j hj]
    unfold block_prev
    rw [if_neg (by omega)]
    rw [show j - (k + 1) = (j - 1) - k from by omega]
    exact ih (j - 1) (by omega) (by omega)

theorem at_idx_canonical {N : Nat} (hN : 0 < N) (vs : List α) {i : Nat}
    (hi : i < vs.length) :
    at_idx N (canonical N vs) i = .ok (vs.getD i default) := by
  have hlen : 0 < vs.length := by omega
  obtain ⟨k, hk⟩ : ∃ k, nblocks N vs.length = k + 1 :=
    ⟨nblocks N vs.length - 1, by have := nblocks_pos hN hlen; omega⟩
  have hle : vs.length ≤ (k + 1) * N := by
    have h := le_nblocks_mul hN vs.length; rw [hk] at h; exact h
  have hnumb : (canonical N vs).num_blocks = k + 1 := hk
  have hhead0 : (canonical N vs).head = some 0 := by
    show (if nblocks N vs.length = 0 then none else some 0) = some 0
    rw [hk, if_neg (by omega)]
  have htail0 : (canonical N vs).tail = some k := by
    show (if nblocks N vs.length = 0 then none
      else some (nblocks N vs.length - 1)) = some k
    rw [hk, if_neg (by omega)]
    simp
  have hstoreB : (canonical N vs).store = idmap (canon_block N vs (k + 1)) (k + 1) := by
    show canon_store N vs = _
    unfold canon_store
    rw [hk]
  have hbn : i / N < k + 1 := by
    have h1 : i < (k + 1) * N := by omega
    exact Nat.div_lt_of_lt_mul (by rw [Nat.mul_comm] at h1; exact h1)
  have hr : i % N < N := Nat.mod_lt _ hN
  have hdm : N * (i / N) + i % N = i := Nat.div_add_mod i N
  have hbnN : i / N * N ≤ i := Nat.div_mul_le_self _ _
  have howner : (if i / N = 0 then Except.ok (canonical N vs).head
      else if i / N = wsub (canonical N vs).num_blocks 1 then Except.ok (canonical N vs).tail
      else if i / N ≤ (canonical N vs).num_blocks / 2 then
        walk_next (canonical N vs).store (canonical N vs).head (i / N)
      else
        walk_prev (canonical N vs).store (canonical N vs).tail
          (wsub (wsub (canonical N vs).num_blocks (i / N)) 1)) = .ok (some (i / N)) := by
    rw [hnumb, hhead0, htail0, hstoreB]
    rw [show wsub (k + 1) 1 = k from by rw [wsub_of_le (by omega)]; omega]
    by_cases hz : i / N = 0
    · rw [if_pos hz, hz]
    · rw [if_neg hz]
      by_cases hkk : i / N = k
      · rw [if_pos hkk, hkk]
      · rw [if_neg hkk]
        by_cases hhalf : i / N ≤ (k + 1) / 2
        · rw [if_pos hhalf]
          have h := walk_next_idmap (m := k + 1) (canon_block N vs (k + 1))
            (fun j hj => rfl) (i / N) 0 (by omega)
          simpa using h
        · rw [if_neg hhalf]
          rw [show wsub (wsub (k + 1) (i / N)) 1 = k - i / N from by
            rw [show wsub (k + 1) (i / N) = k + 1 - i / N from
              wsub_of_le (Nat.le_of_lt hbn)]
            rw [show wsub (k + 1 - i / N) 1 = k + 1 - i / N - 1 from
              wsub_of_le (by omega)]
            omega]
          have h := walk_prev_idmap (m := k + 1) (canon_block N vs (k + 1))
            (fun j hj => rfl) (k - i / N) k (by omega) (by omega)
          rw [h]
          rw [show k - (k - i / N) = i / N from by omega]
  unfold at_idx
  rw [if_pos (show i < (canonical N vs).size from hi)]
  rw [howner, hstoreB]
  show (match find_block (idmap (canon_block N vs (k + 1)) (k + 1)) (i / N) with
      | none => (Except.error cerr.null_deref : Except cerr α)
      | some b => if i % N < b.size then Except.ok (b.arr.getD (i % N) default)
          else Except.error cerr.out_of_range)
    = Except.ok (vs.getD i default)
  rw [find_idmap (canon_block N vs (k + 1)) hbn]
  have hcnt : (canon_block N vs (k + 1) (i / N)).size = min (vs.length - i / N * N) N := rfl
  have hchl : (chunk N vs (i / N)).length = min N (vs.length - i / N * N) :=
    chunk_length N vs (i / N)
  show (if i % N < (canon_block N vs (k + 1) (i / N)).size
      then (Except.ok ((canon_block N vs (k + 1) (i / N)).arr.getD (i % N) default)
        : Except cerr α)
      else Except.error cerr.out_of_range) = Except.ok (vs.getD i default)
  rw [if_pos (show i % N < (canon_block N vs (k + 1) (i / N)).size from by
    rw [hcnt]
    have h2 : i / N * N = N * (i / N) := Nat.mul_comm _ _
    have h3 : i % N < vs.length - i / N * N := by omega
    omega)]
  show Except.ok ((canon_arr N vs (i / N)).getD (i % N) default)
    = Except.ok (vs.getD i default)
  refine congrArg Except.ok ?_
  rw [canon_arr_getD (by
    rw [hchl]
    have h2 : i / N * N = N * (i / N) := Nat.mul_comm _ _
    omega)]
  rw [show i / N * N + i % N = i from by
    have h2 : i / N * N = N * (i / N) := Nat.mul_comm _ _
    omega]

theorem at_idx_oob {N : Nat} (s : segmented_list α) {i : Nat} (hi : s.size ≤ i) :
    at_idx N s i = .error .out_of_range := by
  unfold at_idx
  rw [if_neg (by omega)]

theorem topo_eq_refl (s : segmented_list α) : topo_eq s s :=
  ⟨rfl, rfl, rfl, rfl, rfl, rfl, rfl⟩

theorem shape_eq_refl (s : segmented_list α) : shape_eq s s :=
  ⟨topo_eq_refl s, rfl, rfl⟩

theorem shape_eq_trans {s1 s2 s3 : segmented_list α}
    (h1 : shape_eq s1 s2) (h2 : shape_eq s2 s3) : shape_eq s1 s3 := by
  obtain ⟨⟨a1, b1, c1, d1, e1, f1, g1⟩, i1, j1⟩ := h1
  obtain ⟨⟨a2, b2, c2, d2, e2, f2, g2⟩, i2, j2⟩ := h2
  exact ⟨⟨a1.trans a2, b1.trans b2, c1.trans c2, d1.trans d2, e1.trans e2,
    f1.trans f2, g1.trans g2⟩, i1.trans i2, j1.trans j2⟩

theorem find_block_cons (p : Nat × list_block α) (rest : List (Nat × list_block α))
    (i : Nat) : find_block (p :: rest) i
      = if p.1 = i then some p.2 else find_block rest i := rfl

theorem set_block_cons (p : Nat × list_block α) (rest : List (Nat × list_block α))
    (i : Nat) (b : list_block α) : set_block (p :: rest) i b
      = if p.1 = i then (i, b) :: rest else p :: set_block rest i b := rfl

theorem store_shape_cons (p : Nat × list_block α)
    (rest : List (Nat × list_block α)) :
    store_shape (p :: rest) = (p.1, block_shape p.2) :: store_shape rest := rfl

theorem store_shape_set_arr {i : Nat} {b : list_block α} {x : List α} :
    ∀ {st : List (Nat × list_block α)}, find_block st i = some b →
      store_shape (set_block st i { b with arr := x }) = store_shape st := by
  intro st
  induction st with
  | nil => intro h; cases h
  | cons p rest ih =>
    intro h
    rw [find_block_cons] at h
    rw [set_block_cons]
    by_cases hp : p.1 = i
    · rw [if_pos hp] at *
      cases h
      rw [store_shape_cons, store_shape_cons]
      rw [← hp]
      rfl
    · rw [if_neg hp] at *
      rw [store_shape_cons, store_shape_cons, ih h]

theorem iter_write_shape (N : Nat) (s : segmented_list α) (it : list_iterator)
    (v : α) : shape_eq (resState (iter_write N s it v)) s := by
  unfold iter_write
  split
  · split
    · exact shape_eq_refl s
    · split
      · exact shape_eq_refl s
      · split
        · refine ⟨⟨rfl, rfl, rfl, rfl, rfl, rfl, ?_⟩, rfl, rfl⟩
          exact store_shape_set_arr (by assumption)
        · exact shape_eq_refl s
  · exact shape_eq_refl s

theorem insert_loop_shape (N : Nat) (pos : list_iterator) :
    ∀ (fuel : Nat) (s : segmented_list α) (np op : list_iterator),
      shape_eq (resState (insert_loop N pos s np op fuel)) s := by
  intro fuel
  induction fuel with
  | zero => intro s np op; exact shape_eq_refl s
  | succ fuel ih =>
    intro s np op
    rw [insert_loop]
    split
    · exact shape_eq_refl s
    split
    · exact shape_eq_refl s
    rename_i wt hwt
    split
    · exact shape_eq_refl s
    rename_i rt hrt
    split
    · exact shape_eq_refl s
    rename_i w hw0
    split
    · rename_i es hes
      have h := iter_write_shape N s wt w
      rw [hes] at h
      exact h
    rename_i s1 hs1
    have hw : shape_eq s1 s := by
      have h := iter_write_shape N s wt w
      rwa [hs1] at h
    split
    · exact hw
    rename_i op1 hop1
    split
    · exact hw
    rename_i np1 hnp1
    exact shape_eq_trans (ih s1 np1 op1) hw

theorem insert_frame (N fuel : Nat) (s : segmented_list α)
    (pos : list_iterator) (v : α) (h : s.size + 1 < s.capacity) :
    shape_eq (resState (insert N fuel s pos v)) { s with size := s.size + 1 } := by
  simp only [insert]
  rw [if_neg (show ¬ (({ s with size := s.size + 1 } : segmented_list α).capacity
    ≤ ({ s with size := s.size + 1 } : segmented_list α).size) from by
      show ¬ (s.capacity ≤ s.size + 1)
      omega)]
  split
  · rename_i e he
    simp at he
  rename_i s1 hs1
  injection hs1 with hs1'
  subst hs1'
  split
  · exact shape_eq_refl _
  rename_i e0 he0
  split
  · exact shape_eq_refl _
  rename_i b0 hb0
  split
  · rename_i es hes
    have hl := insert_loop_shape N pos fuel { s with size := s.size + 1 } b0 b0
    rw [hes] at hl
    exact hl
  rename_i s2 hs2
  have hl : shape_eq s2 { s with size := s.size + 1 } := by
    have h2 := insert_loop_shape N pos fuel { s with size := s.size + 1 } b0 b0
    rwa [hs2] at h2
  exact shape_eq_trans (iter_write_shape N s2 pos v) hl

theorem alloc_block_ok_counts {N : Nat} {s s1 : segmented_list α}
    (h : alloc_block N s = .ok s1) :
    s1.num_blocks = s.num_blocks + 1 ∧ s1.capacity = s.capacity + N := by
  simp only [alloc_block] at h
  split at h
  · split at h
    · simp at h
    · split at h
      · simp at h
      · split at h
        · simp at h
        · injection h with h'
          subst h'
          exact ⟨rfl, rfl⟩
  · split at h
    · injection h with h'
      subst h'
      exact ⟨rfl, rfl⟩
    · split at h
      · split at h
        · simp at h
        · split at h
          · simp at h
          · injection h with h'
            subst h'
            exact ⟨rfl, rfl⟩
      · split at h
        · simp at h
        · split at h
          · simp at h
          · injection h with h'
            subst h'
            exact ⟨rfl, rfl⟩

theorem shape_eq_counts {s s' : segmented_list α} (h : shape_eq s s') :
    s.num_blocks = s'.num_blocks ∧ s.capacity = s'.capacity :=
  ⟨h.1.2.2.2.2.2.1, h.1.2.2.2.2.1⟩

theorem insert_grow (N fuel : Nat) (s : segmented_list α)
    (pos : list_iterator) (v : α) (s1 : segmented_list α)
    (hc : s.capacity ≤ s.size + 1)
    (halloc : alloc_block N { s with size := s.size + 1 } = .ok s1) :
    (resState (insert N fuel s pos v)).num_blocks = s.num_blocks + 1 ∧
    (resState (insert N fuel s pos v)).capacity = s.capacity + N := by
  have ha := alloc_block_ok_counts halloc
  have ha1 : s1.num_blocks = s.num_blocks + 1 := ha.1
  have ha2 : s1.capacity = s.capacity + N := ha.2
  simp only [insert]
  rw [if_pos (show ({ s with size := s.size + 1 } : segmented_list α).capacity
    ≤ ({ s with size := s.size + 1 } : segmented_list α).size from hc)]
  rw [halloc]
  split
  · rename_i e he
    simp at he
  rename_i s1' hs1
  injection hs1 with hs1'
  subst hs1'
  split
  · exact ⟨ha1, ha2⟩
  rename_i e0 he0
  split
  · exact ⟨ha1, ha2⟩
  rename_i b0 hb0
  split
  · rename_i es hes
    have hl := insert_loop_shape N pos fuel s1 b0 b0
    rw [hes] at hl
    obtain ⟨hn, hcap⟩ := shape_eq_counts hl
    exact ⟨by omega, by omega⟩
  rename_i s2 hs2
  have hl : shape_eq s2 s1 := by
    have h2 := insert_loop_shape N pos fuel s1 b0 b0
    rwa [hs2] at h2
  have hw : shape_eq (resState (iter_write N s2 pos v)) s2 :=
    iter_write_shape N s2 pos v
  obtain ⟨hn, hcap⟩ := shape_eq_counts (shape_eq_trans hw hl)
  exact ⟨by omega, by omega⟩

theorem pop_canonical_mod {N : Nat} (hN : 0 < N) (vs : List α) (v : α)
    (hmod : vs.length % N ≠ 0) :
    ∃ s', pop_back N (canonical N (vs ++ [v])) = .ok s'
      ∧ topo_eq s' (canonical N vs) := by
  have hlen3 : (vs ++ [v]).length = vs.length + 1 := by simp
  have hlen : 0 < vs.length := by
    rcases Nat.eq_zero_or_pos vs.length with h | h
    · rw [h] at hmod; simp at hmod
    · exact h
  obtain ⟨k, hk⟩ : ∃ k, nblocks N vs.length = k + 1 :=
    ⟨nblocks N vs.length - 1, by have := nblocks_pos hN hlen; omega⟩
  have hle : vs.length ≤ (k + 1) * N := by
    have h := le_nblocks_mul hN vs.length; rw [hk] at h; exact h
  have hlt : k * N < vs.length := by
    have h := nblocks_sub_one_mul_lt hN hlen; rw [hk] at h; simpa using h
  have hne : vs.length ≠ (k + 1) * N := by
    intro h
    exact hmod ((len_eq_nblocks_mul_iff hN).mp (by rw [hk]; exact h))
  have hsm : (k + 1) * N = k * N + N := by ring
  have hm' : nblocks N (vs ++ [v]).length = k + 1 := by
    rw [hlen3, nblocks_succ_of_mod hN hmod, hk]
  have hsz : (canonical N (vs ++ [v])).size = vs.length + 1 := hlen3
  have htail : (canonical N (vs ++ [v])).tail = some k := by
    show (if nblocks N (vs ++ [v]).length = 0 then none
      else some (nblocks N (vs ++ [v]).length - 1)) = some k
    rw [hm', if_neg (by omega)]
    simp
  have hstore : (canonical N (vs ++ [v])).store
      = idmap (canon_block N (vs ++ [v]) (k + 1)) (k + 1) := by
    show canon_store N (vs ++ [v]) = _
    unfold canon_store
    rw [hm']
  have hgsz : (canon_block N (vs ++ [v]) (k + 1) k).size
      = (vs.length - k * N) + 1 := by
    show canon_count N (vs ++ [v]) k = _
    unfold canon_count
    rw [hlen3]
    rw [Nat.min_eq_left (by omega)]
    omega
  have hwsub : wsub ((canon_block N (vs ++ [v]) (k + 1) k).size) 1
      = vs.length - k * N := by
    rw [hgsz, wsub_of_le (by omega)]
    omega
  simp only [pop_back]
  rw [if_neg (show ¬ ((canonical N (vs ++ [v])).size = 0) from by
    rw [hsz]; omega)]
  simp only [htail, hstore,
    find_idmap (canon_block N (vs ++ [v]) (k + 1)) (show k < k + 1 from by omega),
    hwsub]
  rw [if_neg (show ¬ (vs.length - k * N = 0) from by omega)]
  refine ⟨_, rfl, ?_⟩
  have htail2 : (canonical N vs).tail = some k := by
    show (if nblocks N vs.length = 0 then none
      else some (nblocks N vs.length - 1)) = some k
    rw [hk, if_neg (by omega)]
    simp
  refine ⟨?_, htail2.symm, rfl, ?_, ?_, ?_, ?_⟩
  · -- head
    show (if nblocks N (vs ++ [v]).length = 0 then none else some 0)
      = (if nblocks N vs.length = 0 then none else some 0)
    rw [hm', hk]
  · -- size
    show wsub (canonical N (vs ++ [v])).size 1 = vs.length
    rw [hsz, wsub_of_le (by omega)]
    omega
  · -- capacity
    show nblocks N (vs ++ [v]).length * N = nblocks N vs.length * N
    rw [hm', hk]
  · -- num_blocks
    show nblocks N (vs ++ [v]).length = nblocks N vs.length
    rw [hm', hk]
  · -- store shape
    show store_shape (set_block (idmap (canon_block N (vs ++ [v]) (k + 1)) (k + 1)) k
        { canon_block N (vs ++ [v]) (k + 1) k with size := vs.length - k * N })
      = store_shape (canon_store N vs)
    rw [set_idmap_top]
    rw [show canon_store N vs = idmap (canon_block N vs (k + 1)) (k + 1) from by
      unfold canon_store; rw [hk]]
    rw [idmap_succ]
    rw [store_shape_cons, store_shape_cons]
    rw [show idmap (canon_block N (vs ++ [v]) (k + 1)) k
        = idmap (canon_block N vs (k + 1)) k from
      idmap_congr (fun j hj => Eq.symm (canon_block_stable v (by
        have hmul : (j + 1) * N ≤ k * N := Nat.mul_le_mul_right N (by omega)
        have hx : (j + 1) * N = j * N + N := by ring
        omega) (Or.inr rfl) (Or.inr rfl)))]
    refine congrArg₂ _ ?_ rfl
    refine congrArg _ ?_
    show ((canon_block N (vs ++ [v]) (k + 1) k).previous,
        (canon_block N (vs ++ [v]) (k + 1) k).next, vs.length - k * N)
      = (block_prev k, block_next (k + 1) k, canon_count N vs k)
    show (block_prev k, block_next (k + 1) k, vs.length - k * N)
      = (block_prev k, block_next (k + 1) k, canon_count N vs k)
    rw [show canon_count N vs k = vs.length - k * N from by
      unfold canon_count
      exact Nat.min_eq_left (by omega)]

theorem alloc_block_count_reserved {N : Nat} (s : segmented_list α)
    (h : s.reserved ≠ none) :
    (resState (alloc_block N s)).alloc_count = s.alloc_count := by
  obtain ⟨r, hr⟩ : ∃ r, s.reserved = some r := by
    cases hres : s.reserved with
    | none => exact absurd hres h
    | some r => exact ⟨r, rfl⟩
  simp only [alloc_block, hr]
  split
  · rfl
  split
  · rfl
  split
  · rfl
  rfl

theorem push_back_alloc_reserved {N : Nat} (s : segmented_list α) (v : α)
    (h : s.reserved ≠ none) :
    (resState (push_back N s v)).alloc_count = s.alloc_count := by
  unfold push_back
  by_cases hc : s.size = s.capacity
  · rw [if_pos hc]
    have ha := alloc_block_count_reserved (N := N) s h
    split
    · rename_i e he
      rw [he] at ha
      exact ha
    rename_i s1 hs1
    have ha1 : s1.alloc_count = s.alloc_count := by rw [hs1] at ha; exact ha
    split
    · exact ha1
    rename_i t ht
    split
    · exact ha1
    rename_i tb htb
    split
    · exact ha1
    · exact ha1
  · rw [if_neg hc]
    split
    · rename_i e he
      simp at he
    rename_i t ht
    injection ht with ht'
    subst ht'
    split
    · rfl
    rename_i t2 ht2
    split
    · rfl
    rename_i tb htb
    split
    · rfl
    · rfl

theorem pop_back_empty {N : Nat} (s : segmented_list α) (h : s.size = 0) :
    pop_back N s = .error (.out_of_range, s) := by
  simp only [pop_back]
  rw [if_pos h]

theorem pop_back_err_iff {N : Nat} (s : segmented_list α) :
    errKind (pop_back N s) = some .out_of_range ↔ s.size = 0 := by
  by_cases h : s.size = 0
  · rw [pop_back_empty (N := N) s h]
    simp [errKind, h]
  · constructor
    · intro hk
      exfalso
      revert hk
      simp only [pop_back]
      rw [if_neg h]
      repeat' split
      all_goals simp [errKind]
    · intro hz; exact absurd hz h

theorem front_err_iff (s : segmented_list α) :
    front s = Except.error .out_of_range ↔ s.size = 0 := by
  unfold front
  by_cases h : s.size = 0
  · rw [if_pos h]
    simp [h]
  · rw [if_neg h]
    constructor
    · intro hk
      exfalso
      revert hk
      repeat' split
      all_goals simp
    · intro hz; exact absurd hz h

theorem back_err_iff (s : segmented_list α) :
    back s = Except.error .out_of_range ↔ s.size = 0 := by
  unfold back
  by_cases h : s.size = 0
  · rw [if_pos h]
    simp [h]
  · rw [if_neg h]
    constructor
    · intro hk
      exfalso
      revert hk
      repeat' split
      all_goals simp
    · intro hz; exact absurd hz h

/-!
## The remaining claims
-/

/-- C1: starting from the empty container, a sequence of `push_back` calls
with values `v1..vk` yields `size() = k`, and `at(i)` returns `v(i+1)` for
every `i < k`: elements are read back in append order. -/
theorem C1_append_then_at (N : Nat) (hN : 0 < N) (vs : List α) :
    ∃ s, from_list N vs = .ok s ∧ s.size = vs.length ∧
      ∀ i, i < vs.length → at_idx N s i = .ok (vs.getD i default) := by
  refine ⟨canonical N vs, from_list_canonical hN vs, rfl, ?_⟩
  intro i hi
  exact at_idx_canonical hN vs hi

/-- Witness for C1 at block size 21 and the values 10, 20, 30. -/
theorem C1_append_then_at_witness :
    ∃ s, from_list 21 ([10, 20, 30] : List Nat) = .ok s ∧
      s.size = ([10, 20, 30] : List Nat).length ∧
      ∀ i, i < ([10, 20, 30] : List Nat).length →
        at_idx 21 s i = .ok (([10, 20, 30] : List Nat).getD i default) :=
  C1_append_then_at 21 (by decide) [10, 20, 30]

/-- C2 (amended): for every container state reached by appends whose tail
block is not full (`size % N ≠ 0`), `push_back` immediately followed by
`pop_back` succeeds and restores size, capacity, head, tail, reserved, the
block count and every block's links and counts; and whenever a reserved
block is present, `push_back` performs no fresh allocation.  (As stated the
original claim fails: from the empty container the round trip faults, and at
the capacity boundary the round trip changes the reserved block.) -/
theorem C2_push_pop_restores (N : Nat) (hN : 0 < N) :
    (∀ (vs : List α) (v : α), vs.length % N ≠ 0 →
      ∃ s1 s2, push_back N (canonical N vs) v = .ok s1 ∧
        pop_back N s1 = .ok s2 ∧ topo_eq s2 (canonical N vs)) ∧
    (∀ (s : segmented_list α) (v : α), s.reserved ≠ none →
      (resState (push_back N s v)).alloc_count = s.alloc_count) := by
  constructor
  · intro vs v hmod
    obtain ⟨s2, h1, h2⟩ := pop_canonical_mod hN vs v hmod
    refine ⟨canonical N (vs ++ [v]), s2, push_canonical hN vs v, h1, h2⟩
  · intro s v h
    exact push_back_alloc_reserved s v h

/-- Witness for C2: block size 3 with one stored element, and the
no-allocation part on a state holding a reserved block (built with block
size 1 by push, push, pop). -/
theorem C2_push_pop_restores_witness :
    (∃ s1 s2, push_back 3 (canonical 3 ([7] : List Nat)) 8 = .ok s1 ∧
      pop_back 3 s1 = .ok s2 ∧ topo_eq s2 (canonical 3 [7])) ∧
    (resState (push_back 1
        (resState (Except.bind (from_list 1 ([5, 6] : List Nat)) (pop_back 1)))
        9)).alloc_count
      = (resState (Except.bind (from_list 1 ([5, 6] : List Nat))
          (pop_back 1))).alloc_count :=
  ⟨(C2_push_pop_restores 3 (by decide)).1 [7] 8 (by decide),
   (C2_push_pop_restores 1 (by decide)).2 _ 9 (by decide)⟩

/-- C8 (amended): `insert` increments `size`; it grows the chain by exactly
one block precisely when the incremented size is greater than **or equal
to** the capacity (the source tests `_size >= _capacity`); when the new size
is strictly below the capacity, the capacity, block count and complete
block topology (and the allocation count) are unchanged. -/
theorem C8_insert_topology (N : Nat) :
    (∀ (fuel : Nat) (s : segmented_list α) (pos : list_iterator) (v : α),
      s.size + 1 < s.capacity →
        shape_eq (resState (insert N fuel s pos v)) { s with size := s.size + 1 }) ∧
    (∀ (fuel : Nat) (s : segmented_list α) (pos : list_iterator) (v : α)
        (s1 : segmented_list α), s.capacity ≤ s.size + 1 →
        alloc_block N { s with size := s.size + 1 } = .ok s1 →
        (resState (insert N fuel s pos v)).num_blocks = s.num_blocks + 1 ∧
        (resState (insert N fuel s pos v)).capacity = s.capacity + N) :=
  ⟨fun fuel s pos v h => insert_frame N fuel s pos v h,
   fun fuel s pos v s1 hc halloc => insert_grow N fuel s pos v s1 hc halloc⟩

/-- Witness for C8: below capacity the topology is untouched (block size 21,
two elements), and at the boundary (block size 1, one element) the insert
leaves one more block and one more block's worth of capacity behind. -/
theorem C8_insert_topology_witness :
    shape_eq (resState (insert 21 10 (canonical 21 ([10, 20] : List Nat))
        (begin (canonical 21 ([10, 20] : List Nat))) 99))
      { canonical 21 ([10, 20] : List Nat) with
        size := (canonical 21 ([10, 20] : List Nat)).size + 1 } ∧
    ((resState (insert 1 10 (canonical 1 ([7] : List Nat))
        (begin (canonical 1 ([7] : List Nat))) 9)).num_blocks
      = (canonical 1 ([7] : List Nat)).num_blocks + 1 ∧
     (resState (insert 1 10 (canonical 1 ([7] : List Nat))
        (begin (canonical 1 ([7] : List Nat))) 9)).capacity
      = (canonical 1 ([7] : List Nat)).capacity + 1) :=
  ⟨(C8_insert_topology 21).1 10 (canonical 21 [10, 20])
      (begin (canonical 21 [10, 20])) 99 (by decide),
   (C8_insert_topology 1).2 10 (canonical 1 [7]) (begin (canonical 1 [7])) 9
      (resState (alloc_block 1 { canonical 1 ([7] : List Nat) with size := 2 }))
      (by decide) (by rfl)⟩

/-- C9: `at(i)` fails with `IndexOutOfRange` exactly when `i ≥ size()` (the
success direction on append-built states), `pop_back`, `front` and `back`
fail with `EmptyContainer` exactly when `size() = 0`, and a failing
`pop_back` leaves the container exactly as it was (`at`, `front` and `back`
never mutate).  All error conditions are stated over every container state;
the success of `at` below `size` is stated over append-built states. -/
theorem C9_error_conditions (N : Nat) (hN : 0 < N) :
    (∀ (s : segmented_list α) (i : Nat), s.size ≤ i →
        at_idx N s i = .error .out_of_range) ∧
    (∀ (vs : List α) (i : Nat), i < vs.length →
        at_idx N (canonical N vs) i = .ok (vs.getD i default)) ∧
    (∀ s : segmented_list α, s.size = 0 →
        pop_back N s = .error (.out_of_range, s)) ∧
    (∀ s : segmented_list α,
        (errKind (pop_back N s) = some .out_of_range ↔ s.size = 0)) ∧
    (∀ s : segmented_list α, (front s = .error .out_of_range ↔ s.size = 0)) ∧
    (∀ s : segmented_list α, (back s = .error .out_of_range ↔ s.size = 0)) :=
  ⟨fun s _ h => at_idx_oob s h, fun vs _ h => at_idx_canonical hN vs h,
   fun s h => pop_back_empty s h, fun s => pop_back_err_iff s,
   fun s => front_err_iff s, fun s => back_err_iff s⟩

/-- Witness for C9: the out-of-range read on the empty container, the
in-range read on an append-built container, and the failing `pop_back`
carrying back the unchanged empty container. -/
theorem C9_error_conditions_witness :
    at_idx 2 (empty_list (α := Nat)) 0 = .error .out_of_range ∧
    at_idx 2 (canonical 2 ([4, 5, 6] : List Nat)) 1
      = .ok (([4, 5, 6] : List Nat).getD 1 default) ∧
    pop_back 2 (empty_list (α := Nat)) = .error (.out_of_range, empty_list) :=
  ⟨(C9_error_conditions 2 (by decide)).1 empty_list 0 (by decide),
   (C9_error_conditions 2 (by decide)).2.1 [4, 5, 6] 1 (by decide),
   (C9_error_conditions 2 (by decide)).2.2.1 empty_list rfl⟩

end SL
